import Mathlib

/-!
# pkg/kube/run.go: running a Kubernetes job and streaming its logs

A shallow embedding of `RunAction` (package `kube`) and of the properties its
design document states about it.

Conventions of the embedding.

* A Go `error` value is an `Option Err`; `none` is `nil`.
* `trace.Wrap` adds a stack trace to an error and keeps its kind (`trace.IsRetryError`,
  `trace.IsCompareFailed` and the message look through it), so it is the identity here.
* A Go `map[string]T` is an association list with unique keys, in insertion order.
* Calls to the cluster (create, get, list, watch) are resolved by an explicit
  environment value that records what the cluster answered.
* A Go `select` picks one of the cases that are ready; which one is decided by
  a scheduler number that is part of the environment.
-/

namespace Kube

/-! ## Errors -/

/-- Error values that flow through `run.go`. -/
inductive Err where
  /-- an error answered by the cluster client -/
  | api (msg : String)
  /-- the result of `trace.CompareFailed`, carrying the counts of the message -/
  | compareFailed (succeeded active : Int)
  /-- the result of `trace.Retry` -/
  | retry (msg : String)
  /-- the value of `ctx.Err()` once the context is done -/
  | canceled
  /-- the wrapper `&backoff.PermanentError{Err: e}` -/
  | permanent (inner : Err)
  deriving DecidableEq, Repr

/-- Go `trace.Wrap`: keeps `nil`, keeps the kind of a non-nil error. -/
def traceWrap (e : Option Err) : Option Err := e

/-- Go `trace.IsRetryError`. -/
def IsRetryError : Err → Bool
  | .retry _ => true
  | _ => false

/-- Go `trace.IsCompareFailed`. -/
def IsCompareFailed : Err → Bool
  | .compareFailed _ _ => true
  | _ => false

/-! ## Cluster objects -/

/-- Go `metav1.OwnerReference`, the fields read by `collectPods`. -/
structure OwnerReference where
  Kind : String
  UID : String
  deriving DecidableEq, Repr

/-- Go `corev1.ContainerState`: three optional members. -/
structure ContainerState where
  Waiting : Option String
  Running : Option Nat
  Terminated : Option Int
  deriving DecidableEq, Repr

/-- Go `corev1.ContainerStatus`. -/
structure ContainerStatus where
  Name : String
  State : ContainerState
  deriving DecidableEq, Repr

/-- Go `corev1.Pod`, the fields read by `run.go`. -/
structure Pod where
  Name : String
  Namespace : String
  OwnerReferences : List OwnerReference
  ContainerStatuses : List ContainerStatus
  deriving DecidableEq, Repr

/-- Go `batchv1.Job`: identity, `Spec.Completions` and the `Status` counters. -/
structure Job where
  Name : String
  Namespace : String
  UID : String
  Completions : Option Int
  Succeeded : Int
  Active : Int
  deriving DecidableEq, Repr

/-- Modelled from the spec: the constant `KindJob` of package `kube` is declared
outside `run.go`; the design document names the workload kind "Job". -/
def KindJob : String := "Job"

/-! ## Go maps keyed by strings -/

/-- A Go `map[string]T`. -/
abbrev GoMap (α : Type) := List (String × α)

namespace GoMap

/-- The lookup `m[k]` with the comma-ok result. -/
def get {α : Type} : GoMap α → String → Option α
  | [], _ => none
  | (k, v) :: rest, key => if k = key then some v else get rest key

/-- The assignment `m[k] = v`. -/
def set {α : Type} : GoMap α → String → α → GoMap α
  | [], key, v => [(key, v)]
  | (k, w) :: rest, key, v => if k = key then (k, v) :: rest else (k, w) :: set rest key v

/-- The keys of the map. -/
def keys {α : Type} (m : GoMap α) : List String := m.map Prod.fst

end GoMap

/-- Go `map[string]corev1.Pod`. -/
abbrev PodSet := GoMap Pod

/-! ## getJobStatus -/

/-- The completion test inside `getJobStatus` (the `complete` variable). -/
def jobComplete (job : Job) : Bool :=
  match job.Completions with
  | none => decide (job.Succeeded > 0) && decide (job.Active = 0)
  | some completions => decide (job.Succeeded ≥ completions)

/-- Go `getJobStatus`; `fetched` is the answer of `jobs.Get`. -/
def getJobStatus (fetched : Except Err Job) : Option Err :=
  match fetched with
  | .error e => traceWrap (some e)
  | .ok job =>
    if !jobComplete job then some (.compareFailed job.Succeeded job.Active)
    else none

/-! ## collectPods -/

/-- The inner loop of `collectPods` over `pod.OwnerReferences`. -/
def collectRefs (job : Job) (pod : Pod) : List OwnerReference → PodSet → PodSet
  | [], pods => pods
  | ref :: refs, pods =>
    if ref.Kind = KindJob ∧ ref.UID = job.UID then collectRefs job pod refs (pods.set pod.Name pod)
    else collectRefs job pod refs pods

/-- The outer loop of `collectPods` over `podList.Items`. -/
def collectItems (job : Job) : List Pod → PodSet → PodSet
  | [], pods => pods
  | pod :: items, pods => collectItems job items (collectRefs job pod pod.OwnerReferences pods)

/-- Go `collectPods`; `listed` is the answer of the label-selector `List` call. -/
def collectPods (job : Job) (listed : Except Err (List Pod)) : Except Err PodSet :=
  match listed with
  | .error e => .error e
  | .ok items => .ok (collectItems job items [])

/-- A pod is owned by the job: some owner reference has kind Job and the job's UID. -/
def ownedBy (job : Job) (pod : Pod) : Prop :=
  ∃ ref ∈ pod.OwnerReferences, ref.Kind = KindJob ∧ ref.UID = job.UID

/-! ## IsStreamClosedError -/

/-- Go `strings.HasSuffix`: `len(s) >= len(suffix) && s[len(s)-len(suffix):] == suffix`
(lengths and slices counted in characters). -/
def HasSuffix (s suffix : String) : Bool :=
  decide (s.data.length ≥ suffix.data.length) &&
    decide (s.data.drop (s.data.length - suffix.data.length) = suffix.data)

/-- Go `IsClosedResponseBodyErrorMessage`. -/
def IsClosedResponseBodyErrorMessage (err : String) : Bool :=
  HasSuffix err "response body closed"

/-- A non-nil Go error as `IsStreamClosedError` observes it: whether `trace.Unwrap`
yields `io.EOF`, and the text of `Error()`. -/
structure CopyError where
  unwrapsToEOF : Bool
  message : String
  deriving DecidableEq, Repr

/-- Go `IsStreamClosedError`. -/
def IsStreamClosedError (err : Option CopyError) : Bool :=
  match err with
  | none => false
  | some e =>
    if e.unwrapsToEOF then true
    else if IsClosedResponseBodyErrorMessage e.message then true
    else false

/-- The copy goroutine of `streamPodContainerLogs`: whether the result of `io.Copy`
is reported with `log.Warningf`. -/
def copyWarns (err : Option CopyError) : Bool :=
  err.isSome && !IsStreamClosedError err

/-! ## checkJob -/

/-- One element of `watches`: the context of a stream goroutine started by `checkJob`,
named by the pod and container handed to `streamPodContainerLogs` when it is spawned. -/
structure StreamTask where
  pod : String
  container : String
  deriving DecidableEq, Repr

/-- A container entry of a pod diff; `run.go` reads its `new` member. -/
structure ContainerDiff where
  new : ContainerStatus
  deriving DecidableEq, Repr

/-- A pod entry of the result of `diffPodSets`; `run.go` reads `new` and `containers`. -/
structure PodDiff where
  new : Pod
  containers : List ContainerDiff
  deriving DecidableEq, Repr

/-- The type of `diffPodSets`. -/
abbrev Differ := PodSet → PodSet → List PodDiff

/-- Modelled from the spec: the container comparison of `diffPodSets`, which is declared
outside `run.go`: statuses are matched by container name and reported when the status
value differs from the recorded one or no status was recorded. -/
def diffContainers (old new : List ContainerStatus) : List ContainerDiff :=
  new.filterMap fun c =>
    match old.find? (fun o => decide (o.Name = c.Name)) with
    | some o => if o = c then none else some ⟨c⟩
    | none => some ⟨c⟩

/-- Modelled from the spec: `diffPodSets` is declared outside `run.go`. For each pod of
the current snapshot, in discovery order: a pod absent from the previous snapshot is
reported with every container status; a pod present in it is reported with the
container statuses that differ, and not reported when none differs. Pods present only in
the previous snapshot are not reported. -/
def diffPodSets : Differ := fun previous current =>
  current.filterMap fun entry =>
    match previous.get entry.1 with
    | none => some ⟨entry.2, entry.2.ContainerStatuses.map ContainerDiff.mk⟩
    | some old =>
      match diffContainers old.ContainerStatuses entry.2.ContainerStatuses with
      | [] => none
      | cs => some ⟨entry.2, cs⟩

/-- The answers of the cluster during one `checkJob` call. -/
structure PassEnv where
  /-- the answer of the `List` call of `collectPods` -/
  listed : Except Err (List Pod)
  /-- the answer of the `Get` call of `getJobStatus` -/
  fetched : Except Err Job
  deriving Repr

/-- The loop of `checkJob` over `diff.containers`: a stream is started, and its context
appended to `watches`, for a container that is running, or terminated on a first run. -/
def streamContainers (firstRun : Bool) (pod : Pod) :
    List ContainerDiff → List StreamTask → List StreamTask
  | [], watches => watches
  | containerDiff :: rest, watches =>
    if containerDiff.new.State.Running.isSome ||
        (firstRun && containerDiff.new.State.Terminated.isSome) then
      streamContainers firstRun pod rest (watches ++ [⟨pod.Name, containerDiff.new.Name⟩])
    else streamContainers firstRun pod rest watches

/-- The loop of `checkJob` over `diffs`: records the new version of each reported pod
in `podSet` and starts the streams of its containers. -/
def applyDiffs (firstRun : Bool) :
    List PodDiff → PodSet → List StreamTask → PodSet × List StreamTask
  | [], podSet, watches => (podSet, watches)
  | diff :: rest, podSet, watches =>
    applyDiffs firstRun rest (podSet.set diff.new.Name diff.new)
      (streamContainers firstRun diff.new diff.containers watches)

/-- The state `checkJob` leaves: the mutated `podSet`, and its two results. -/
structure CheckResult where
  podSet : PodSet
  watches : List StreamTask
  err : Option Err
  deriving Repr

/-- Go `checkJob`. -/
def checkJob (differ : Differ) (job : Job) (podSet : PodSet) (watches : List StreamTask)
    (env : PassEnv) : CheckResult :=
  let firstRun := watches.length == 0
  match collectPods job env.listed with
  | .error e => ⟨podSet, watches, traceWrap (some e)⟩
  | .ok newSet =>
    let applied := applyDiffs firstRun (differ podSet newSet) podSet watches
    ⟨applied.1, applied.2, getJobStatus env.fetched⟩

/-! ## select -/

/-- The indices, counted from `i`, of the cases that are ready. -/
def readyCases : List Bool → Nat → List Nat
  | [], _ => []
  | b :: bs, i => if b then i :: readyCases bs (i + 1) else readyCases bs (i + 1)

/-- Go `select` without a default case: `ready` says for each case, in source order,
whether its communication can proceed; the result is the index of the case that runs,
chosen by the scheduler number `pick` among the ready ones, and `none` when no case is
ready (the goroutine stays blocked). -/
def goSelect (ready : List Bool) (pick : Nat) : Option Nat :=
  (readyCases ready 0)[pick % (readyCases ready 0).length]?

/-! ## monitorPods -/

/-- What a receive on the events channel of the pod watch finds. -/
inductive ChanState where
  | empty
  | event
  | closed
  deriving DecidableEq, Repr

/-- The state of the channels of the `select` of `monitorPods` at one moment. The job
context is derived from `ctx`, so it is done when `ctx` is done or `waitCancel` ran. -/
structure LoopObs where
  events : ChanState
  ctxDone : Bool
  /-- `waitCancel` has run: the completion watcher returned -/
  jobDone : Bool
  pick : Nat
  deriving Repr

/-- The state of the channels of the inner `select` of the drain at one moment. The
context of a stream is derived from `ctx`, so it is done when `ctx` is done or when the
stream goroutine returned. -/
structure DrainObs where
  ctxDone : Bool
  streamDone : Bool
  pick : Nat
  deriving Repr

/-- One moment of the loop of `monitorPods`, with the answers of the cluster for the
`checkJob` call made when an event is received, and the moments of the drain made when
the job context is done. -/
structure LoopStep where
  obs : LoopObs
  pass : PassEnv
  drain : List DrainObs
  deriving Repr

/-- The environment of one `monitorPods` call. -/
structure MonitorEnv where
  first : PassEnv
  steps : List LoopStep
  deriving Repr

/-- The results of `monitorPods`, and the stream contexts whose `Done` it received. -/
structure MonitorResult where
  watches : List StreamTask
  err : Option Err
  awaited : List StreamTask
  deriving DecidableEq, Repr

/-- The `for _, w := range watches` loop of `monitorPods`. A moment at which neither
`ctx` nor the stream is done leaves the `select` blocked until the next moment. -/
def drainLoop : List StreamTask → List DrainObs → List StreamTask →
    Option (Option Err × List StreamTask)
  | [], _, awaited => some (none, awaited)
  | _ :: _, [], _ => none
  | w :: ws, o :: os, awaited =>
    match goSelect [o.ctxDone, o.ctxDone || o.streamDone] o.pick with
    | none => drainLoop (w :: ws) os awaited
    | some 0 => some (some .canceled, awaited)
    | some _ => drainLoop ws os (awaited ++ [w])

/-- The `for { select { ... } }` loop of `monitorPods`. -/
def monitorLoop (differ : Differ) (job : Job) :
    PodSet → List StreamTask → List LoopStep → Option MonitorResult
  | _, _, [] => none
  | podSet, watches, step :: rest =>
    match goSelect [decide (step.obs.events ≠ .empty), step.obs.ctxDone,
        step.obs.ctxDone || step.obs.jobDone] step.obs.pick with
    | none => monitorLoop differ job podSet watches rest
    | some 0 =>
      if step.obs.events = .closed then
        some ⟨watches, some (.retry "events channel closed"), []⟩
      else
        match checkJob differ job podSet watches step.pass with
        | ⟨_, watches1, none⟩ => some ⟨watches1, none, []⟩
        | ⟨podSet1, watches1, some _⟩ => monitorLoop differ job podSet1 watches1 rest
    | some 1 => some ⟨watches, none, []⟩
    | some _ =>
      match drainLoop watches step.drain [] with
      | none => none
      | some (err, awaited) => some ⟨watches, err, awaited⟩

/-- Go `monitorPods`: `podSet` starts empty at every call. -/
def monitorPods (differ : Differ) (job : Job) (watches : List StreamTask)
    (env : MonitorEnv) : Option MonitorResult :=
  match checkJob differ job [] watches env.first with
  | ⟨_, watches1, none⟩ => some ⟨watches1, none, []⟩
  | ⟨podSet1, watches1, some _⟩ => monitorLoop differ job podSet1 watches1 env.steps

/-! ## Retry loops: streamLogs and wait -/

/-- Modelled from the spec: `retry.WithInterval` of `pkg/retry` is declared outside the
sources at hand. The body is called again and again, without a bound on the number of
attempts, until it returns no error, or an error in the permanent wrapper (whose inner
error is then returned), or until the context is done during the pause between two
attempts (the last error is then returned). Each element of the list is the environment
of one attempt; `none` means that the loop is still running at the end of the list. -/
def retryWithInterval {σ α : Type} (body : σ → α → Option (σ × Option Err))
    (ctxDoneInPause : α → Bool) : σ → List α → Option (σ × Option Err)
  | _, [] => none
  | st, a :: rest =>
    match body st a with
    | none => none
    | some (st1, none) => some (st1, none)
    | some (st1, some (.permanent e)) => some (st1, some e)
    | some (st1, some e) =>
      if ctxDoneInPause a then some (st1, some e)
      else retryWithInterval body ctxDoneInPause st1 rest

/-- The environment of one attempt of the retry loop of `streamLogs`. -/
structure StreamAttempt where
  /-- the error of `newPodWatch`, `none` when the watch was opened -/
  watch : Option Err
  monitor : MonitorEnv
  ctxDoneInPause : Bool
  deriving Repr

/-- The variable `watches` captured by the retry body of `streamLogs`, with the number
of `newPodWatch` calls made and the stream contexts awaited so far. -/
structure StreamState where
  watches : List StreamTask
  opened : Nat
  awaited : List StreamTask
  deriving DecidableEq, Repr

/-- The function literal handed to `retry.WithInterval` in `streamLogs`. -/
def streamLogsBody (differ : Differ) (job : Job) (st : StreamState) (a : StreamAttempt) :
    Option (StreamState × Option Err) :=
  match a.watch with
  | some err => some (⟨st.watches, st.opened + 1, st.awaited⟩, some (.permanent err))
  | none =>
    match monitorPods differ job st.watches a.monitor with
    | none => none
    | some r =>
      let st1 : StreamState := ⟨r.watches, st.opened + 1, st.awaited ++ r.awaited⟩
      match r.err with
      | some err =>
        if !IsRetryError err then some (st1, some (.permanent err))
        else some (st1, traceWrap (some err))
      | none => some (st1, traceWrap none)

/-- Go `streamLogs`: the final state of `watches` and the error returned. -/
def streamLogs (differ : Differ) (job : Job) (attempts : List StreamAttempt) :
    Option (StreamState × Option Err) :=
  match retryWithInterval (streamLogsBody differ job) StreamAttempt.ctxDoneInPause
      ⟨[], 0, []⟩ attempts with
  | none => none
  | some (st, err) => some (st, traceWrap err)

/-- The environment of one attempt of the retry loop of `wait`. -/
structure WaitAttempt where
  /-- the error of `newJobWatch`, `none` when the watch was opened -/
  watch : Option Err
  /-- what `evalJobStatus` (declared outside `run.go`) returns, `none` while it blocks -/
  eval : Option (Option Err)
  ctxDoneInPause : Bool
  deriving Repr

/-- The function literal handed to `retry.WithInterval` in `wait`. -/
def waitBody (_ : Unit) (a : WaitAttempt) : Option (Unit × Option Err) :=
  match a.watch with
  | some err => some ((), some (.permanent err))
  | none =>
    match a.eval with
    | none => none
    | some (some err) =>
      if !IsRetryError err then some ((), some (.permanent err))
      else some ((), traceWrap (some err))
    | some none => some ((), traceWrap none)

/-- Go `wait`. -/
def wait (attempts : List WaitAttempt) : Option (Option Err) :=
  match retryWithInterval waitBody WaitAttempt.ctxDoneInPause () attempts with
  | none => none
  | some (_, some err) => some (traceWrap (some err))
  | some (_, none) => some none

/-! ## Run -/

/-- The state of the channels of the last `select` of `Run` at one moment. -/
structure FinalObs where
  /-- the goroutine running `wait` has sent its result on `waitC` -/
  waitDelivered : Bool
  ctxDone : Bool
  pick : Nat
  deriving Repr

/-- The last `select` of `Run`; `waitResult` is what `wait` returns, if it returns. -/
def finalSelect (waitResult : Option (Option Err)) : List FinalObs → Option (Option Err)
  | [] => none
  | o :: os =>
    match goSelect [o.waitDelivered && waitResult.isSome, o.ctxDone] o.pick with
    | none => finalSelect waitResult os
    | some 0 =>
      match waitResult with
      | some err => some (traceWrap err)
      | none => finalSelect waitResult os
    | some _ => some (some .canceled)

/-- Everything one `Run` call meets. -/
structure RunEnv where
  /-- the result of `r.job.CheckAndSetDefaults` -/
  validate : Option Err
  /-- the result of `r.job.Spec` -/
  spec : Except Err Job
  /-- the answer of `jobs.Create` -/
  create : Except Err Job
  waitEnv : List WaitAttempt
  streamEnv : List StreamAttempt
  final : List FinalObs
  deriving Repr

/-- What a `Run` call did and returned. -/
structure RunResult where
  /-- `jobs.Create` was called -/
  created : Bool
  /-- the goroutine running `wait` was started -/
  waitStarted : Bool
  /-- number of `newPodWatch` calls -/
  podWatches : Nat
  /-- the streams started -/
  streams : List StreamTask
  /-- the stream contexts whose completion was waited for -/
  awaited : List StreamTask
  /-- the error of the warning "Streaming logs ... has failed", if it was logged -/
  warning : Option Err
  /-- the returned error -/
  result : Option Err
  deriving DecidableEq, Repr

/-- Go `RunAction.Run`. -/
def Run (differ : Differ) (env : RunEnv) : Option RunResult :=
  match env.validate with
  | some err => some ⟨false, false, 0, [], [], none, traceWrap (some err)⟩
  | none =>
    match env.spec with
    | .error err => some ⟨false, false, 0, [], [], none, traceWrap (some err)⟩
    | .ok _ =>
      match env.create with
      | .error err => some ⟨true, false, 0, [], [], none, traceWrap (some err)⟩
      | .ok job =>
        match streamLogs differ job env.streamEnv with
        | none => none
        | some (st, err) =>
          match finalSelect (wait env.waitEnv) env.final with
          | none => none
          | some res => some ⟨true, true, st.opened, st.watches, st.awaited, err, res⟩

/-! ## Scenarios -/

/-- A job without completion count, created a moment ago: one active pod. -/
def demoJob : Job := ⟨"build-42", "ci", "uid-42", none, 0, 1⟩

/-- The same job once its pod succeeded. -/
def demoJobDone : Job := ⟨"build-42", "ci", "uid-42", none, 1, 0⟩

/-- The pod of the job, with one container `main` in the given state. -/
def demoPod (state : ContainerState) : Pod :=
  ⟨"build-42-x", "ci", [⟨"Job", "uid-42"⟩], [⟨"main", state⟩]⟩

/-- Container state: waiting. -/
def stateWaiting : ContainerState := ⟨some "ContainerCreating", none, none⟩

/-- Container state: running. -/
def stateRunning : ContainerState := ⟨none, some 7, none⟩

/-- Container state: terminated with exit code 0. -/
def stateTerminated : ContainerState := ⟨none, none, some 0⟩

/-- The stream of container `main` of the pod. -/
def mainStream : StreamTask := ⟨"build-42-x", "main"⟩

/-- A pass that lists the pod in the given state while the job is not complete. -/
def passPending (state : ContainerState) : PassEnv := ⟨.ok [demoPod state], .ok demoJob⟩

/-- A pass that lists the pod in the given state when the job is complete. -/
def passDone (state : ContainerState) : PassEnv := ⟨.ok [demoPod state], .ok demoJobDone⟩

/-- A moment of the loop at which an event is waiting and no context is done. -/
def stepEvent (pass : PassEnv) : LoopStep := ⟨⟨.event, false, false, 0⟩, pass, []⟩

/-- A moment of the loop at which the events channel is closed and no context is done. -/
def stepClosed : LoopStep := ⟨⟨.closed, false, false, 0⟩, passPending stateRunning, []⟩

/-- First attempt of `streamLogs`: the container is running, then the watch drops. -/
def attemptDropped : StreamAttempt :=
  ⟨none, ⟨passPending stateRunning, [stepClosed]⟩, false⟩

/-- Second attempt: the listing is unchanged; an event later shows the job complete. -/
def attemptAfterReopen : StreamAttempt :=
  ⟨none, ⟨passPending stateRunning, [stepEvent (passDone stateRunning)]⟩, false⟩

/-- A `monitorPods` call during which the watch stays open: the listing of the first
pass is returned again on the next event, and once more when the job is complete. -/
def monitorUnchanged : MonitorEnv :=
  ⟨passPending stateRunning,
    [stepEvent (passPending stateRunning), stepEvent (passDone stateRunning)]⟩

/-- A `monitorPods` call that leaves its loop through the job-finished case, the stream
having finished. -/
def monitorDrained : MonitorEnv :=
  ⟨passPending stateRunning,
    [⟨⟨.empty, false, true, 0⟩, passPending stateRunning, [⟨false, true, 0⟩]⟩]⟩

/-- A `monitorPods` call whose first pass sees the container waiting and whose second
pass, on the next event, sees it terminated and the job complete. -/
def monitorLateTerminated : MonitorEnv :=
  ⟨passPending stateWaiting, [stepEvent (passDone stateTerminated)]⟩

/-- A run whose first pass finds the container terminated and the job complete; the
caller never cancels. -/
def runAlreadyComplete : RunEnv :=
  { validate := none
    spec := .ok demoJob
    create := .ok demoJob
    waitEnv := [⟨none, some none, false⟩]
    streamEnv := [⟨none, ⟨passDone stateTerminated, []⟩, false⟩]
    final := [⟨true, false, 0⟩] }

/-- A run in which the job completes and the caller cancels while the first pass is
still being made: at the select of the loop and at the last select both signals have
fired, and the scheduler takes the job-finished case, the stream case of the drain and
the `waitC` case. -/
def runBothFired : RunEnv :=
  { validate := none
    spec := .ok demoJob
    create := .ok demoJob
    waitEnv := [⟨none, some none, false⟩]
    streamEnv := [⟨none, ⟨passPending stateRunning,
      [⟨⟨.empty, true, true, 1⟩, passPending stateRunning, [⟨true, false, 1⟩]⟩]⟩, false⟩]
    final := [⟨true, true, 0⟩] }

/-- A run in which the caller cancels while the container is still streaming and the
completion watcher has not returned. -/
def runCancelled : RunEnv :=
  { validate := none
    spec := .ok demoJob
    create := .ok demoJob
    waitEnv := []
    streamEnv := [⟨none, ⟨passPending stateRunning,
      [⟨⟨.empty, true, false, 1⟩, passPending stateRunning, [⟨true, false, 0⟩]⟩]⟩, false⟩]
    final := [⟨false, true, 0⟩] }

/-- The rule of `checkJob` for a reported container, given the streams tracked when
the pass begins. -/
def startsStream (watches : List StreamTask) : ContainerDiff → Bool := fun containerDiff =>
  containerDiff.new.State.Running.isSome ||
    (decide (watches = []) && containerDiff.new.State.Terminated.isSome)

/-- The streams one pass starts for the reported pods, in order. -/
def streamsOf (watches : List StreamTask) (diffs : List PodDiff) : List StreamTask :=
  diffs.flatMap fun diff =>
    (diff.containers.filter (startsStream watches)).map fun containerDiff =>
      ⟨diff.new.Name, containerDiff.new.Name⟩


end Kube

/-!
# pkg/runner/parser.go: parsing the inputs of a runner

The nodes of `go/ast` are a data type; `go/parser`, `strconv`, the functions that the
parser calls by reflection and `evaluateExpr` (which builds values by reflection) are the
fields of a host value, so that every statement holds whatever they do. The runner is
passed along explicitly, as the functions called while parsing may set its variables.
-/

namespace ForceRunner

open Kube (GoMap)

/-- The token kinds of `go/token` that `parser.go` tells apart. -/
inductive Token where
  | INT
  | FLOAT
  | STRING
  | AND
  | OTHER (name : String)
  deriving DecidableEq, Repr

/-- The nodes of `go/ast` that `parser.go` tells apart. -/
inductive Expr where
  | BasicLit (Kind : Token) (Value : String)
  | Ident (Name : String)
  | SelectorExpr (X : Expr) (Sel : String)
  | CallExpr (Fun : Expr) (Args : List Expr)
  | ParenExpr (X : Expr)
  | CompositeLit (Typ : Option Expr) (Elts : List Expr)
  | ArrayType (Elt : Expr)
  | KeyValueExpr (Key : Expr) (Value : Expr)
  | UnaryExpr (Op : Token) (X : Expr)
  | Other (kind : String)
  deriving Repr

/-- The errors of `parser.go`, named by the message they carry. -/
inductive ParseErr where
  /-- an error of `parser.ParseExpr` -/
  | syntaxError (msg : String)
  /-- "unsupported %T" -/
  | unsupportedNode
  /-- "expected selector identifier, got: ..." -/
  | expectedSelectorIdentifier
  /-- "expected identifier, got: %T" -/
  | expectedIdentifier
  /-- "unsupported function: %v" -/
  | unsupportedFunction (name : String)
  /-- "failed to parse argument: %s, error: %s" -/
  | failedToParseArgument (text : String)
  /-- "unsupported function argument type: '%v'" -/
  | unsupportedArgumentType
  /-- "expected key value expression, got %v" -/
  | expectedKeyValue
  /-- "expected value identifier, got %#v" -/
  | expectedValueIdentifier
  /-- "duplicate struct field %q" -/
  | duplicateStructField (name : String)
  /-- an error of `evaluateExpr` or of a called function -/
  | evaluation (msg : String)
  deriving DecidableEq, Repr

/-- The values (`interface{}`) that the parser handles. -/
inductive Value where
  | null
  | int (n : Int)
  | float (text : String)
  | str (s : String)
  | bool (b : Bool)
  /-- the value `&logging.Plugin{}` -/
  | defaultLoggingPlugin
  /-- any other value built by reflection or returned by a called function -/
  | object (tag : String)
  deriving DecidableEq, Repr

/-- Modelled from the spec: the type `Runner` is declared outside `parser.go`; `Parse`
reads and sets its variables, which are kept here as a map from key to value. -/
structure Runner where
  vars : GoMap Value
  deriving DecidableEq, Repr

/-- Modelled from the spec: `Runner.GetVar` is declared outside `parser.go`; it returns
the value stored under the key and whether one is stored. -/
def Runner.GetVar (runner : Runner) (key : String) : Option Value := runner.vars.get key

/-- Modelled from the spec: `Runner.SetVar` is declared outside `parser.go`; it stores
the value under the key. -/
def Runner.SetVar (runner : Runner) (key : String) (value : Value) : Runner :=
  ⟨runner.vars.set key value⟩

/-- Modelled from the spec: the key `logging.LoggingPlugin` is declared outside
`parser.go`; it names the logging plugin variable of the runner. -/
def LoggingPlugin : String := "LoggingPlugin"

/-- What `parser.go` calls and does not define. -/
structure Host where
  /-- `parser.ParseExpr` of `go/parser` -/
  ParseExpr : String → Except ParseErr Expr
  /-- `strconv.ParseFloat(text, 64)`, `none` on error -/
  ParseFloat : String → Option Value
  /-- `strconv.Atoi`, `none` on error -/
  Atoi : String → Option Int
  /-- `strconv.Unquote`, `none` on error -/
  Unquote : String → Option String
  /-- `callFunction` applied to the function registered under a name: the reflective
  call, with what the called function does to the runner -/
  callFunction : String → List Value → Runner → Runner × Except ParseErr Value
  /-- `evaluateExpr`, with what the functions it calls do to the runner -/
  evaluateExpr : Runner → Expr → Runner × Except ParseErr Value

/-- The keys of the `functions` map built by `Parse`. -/
def functions : List String :=
  ["Process", "Sequence", "Continue", "Parallel", "Files", "Shell", "Oneshot", "Exit",
    "Env", "ExpectEnv", "ID", "Var", "WithTempDir", "WithChangeDir", "Sprintf", "Define",
    "Strings", "Duplicate", "Setup", "Github", "PullRequests", "PostStatus", "PostStatusOf",
    "Git", "Clone", "Builder", "Build", "Push", "Prune", "Log", "Kube", "Run"]

/-- Go `getFunction`: the registered function is named by its key. -/
def getFunction (name : String) : Except ParseErr String :=
  if name ∈ functions then .ok name else .error (.unsupportedFunction name)

/-- Go `getIdentifier`. -/
def getIdentifier (node : Expr) : Except ParseErr String :=
  match node with
  | .SelectorExpr (.Ident id) sel => .ok (id ++ "." ++ sel)
  | .SelectorExpr _ _ => .error .expectedSelectorIdentifier
  | .Ident name => .ok name
  | _ => .error .expectedIdentifier

/-- Go `literalToValue`. -/
def literalToValue (host : Host) (kind : Token) (text : String) : Except ParseErr Value :=
  match kind with
  | .FLOAT =>
    match host.ParseFloat text with
    | none => .error (.failedToParseArgument text)
    | some value => .ok value
  | .INT =>
    match host.Atoi text with
    | none => .error (.failedToParseArgument text)
    | some value => .ok (.int value)
  | .STRING =>
    match host.Unquote text with
    | none => .error (.failedToParseArgument text)
    | some value => .ok (.str value)
  | _ => .error .unsupportedArgumentType

/-- Go `evaluateArguments`. -/
def evaluateArguments (host : Host) : Runner → List Expr → Runner × Except ParseErr (List Value)
  | runner, [] => (runner, .ok [])
  | runner, n :: nodes =>
    match host.evaluateExpr runner n with
    | (runner1, .error err) => (runner1, .error err)
    | (runner1, .ok val) =>
      match evaluateArguments host runner1 nodes with
      | (runner2, .error err) => (runner2, .error err)
      | (runner2, .ok out) => (runner2, .ok (val :: out))

/-- The loop of `evaluateStructFields` over `nodes`, `out` being the map built so far. -/
def structFieldsLoop (host : Host) :
    Runner → List Expr → GoMap Value → Runner × Except ParseErr (GoMap Value)
  | runner, [], out => (runner, .ok out)
  | runner, .KeyValueExpr (.Ident name) value :: nodes, out =>
    match host.evaluateExpr runner value with
    | (runner1, .error err) => (runner1, .error err)
    | (runner1, .ok val) =>
      if (out.get name).isSome then (runner1, .error (.duplicateStructField name))
      else structFieldsLoop host runner1 nodes (out.set name val)
  | runner, .KeyValueExpr _ _ :: _, _ => (runner, .error .expectedValueIdentifier)
  | runner, _ :: _, _ => (runner, .error .expectedKeyValue)

/-- Go `evaluateStructFields`. -/
def evaluateStructFields (host : Host) (runner : Runner) (nodes : List Expr) :
    Runner × Except ParseErr (GoMap Value) :=
  structFieldsLoop host runner nodes []

/-- Go `parseNode`. -/
def parseNode (host : Host) (runner : Runner) : Expr → Runner × Except ParseErr Value
  | .BasicLit kind text => (runner, literalToValue host kind text)
  | .CallExpr fn args =>
    match getIdentifier fn with
    | .error err => (runner, .error err)
    | .ok name =>
      match getFunction name with
      | .error err => (runner, .error err)
      | .ok f =>
        match evaluateArguments host runner args with
        | (runner1, .error err) => (runner1, .error err)
        | (runner1, .ok arguments) => host.callFunction f arguments runner1
  | .ParenExpr x => parseNode host runner x
  | _ => (runner, .error .unsupportedNode)

/-- The loop of `Parse` over `inputs`. -/
def parseInputs (host : Host) : List String → Runner → Runner × Option ParseErr
  | [], runner => (runner, none)
  | input :: inputs, runner =>
    match host.ParseExpr input with
    | .error err => (runner, some err)
    | .ok expr =>
      match parseNode host runner expr with
      | (runner1, .error err) => (runner1, some err)
      | (runner1, .ok _) => parseInputs host inputs runner1

/-- Go `Parse`: the runner as `Parse` leaves it, and the returned error. -/
def Parse (host : Host) (inputs : List String) (runner : Runner) : Runner × Option ParseErr :=
  match parseInputs host inputs runner with
  | (runner1, some err) => (runner1, some err)
  | (runner1, none) =>
    match runner1.GetVar LoggingPlugin with
    | some _ => (runner1, none)
    | none => (runner1.SetVar LoggingPlugin .defaultLoggingPlugin, none)

/-- The element `key: value` of a struct literal. -/
def keyValue (field : String × Expr) : Expr := .KeyValueExpr (.Ident field.1) field.2

/-! ## Scenarios -/

/-- A host for the scenarios: four inputs are known to the parser; `Log` stores a logging
plugin in the runner; string literals evaluate to their text. -/
def demoHost : Host where
  ParseExpr := fun input =>
    if input = "Log()" then .ok (.CallExpr (.Ident "Log") [])
    else if input = "(Setup())" then .ok (.ParenExpr (.CallExpr (.Ident "Setup") []))
    else if input = "Nope()" then .ok (.CallExpr (.Ident "Nope") [])
    else if input = "x +" then .error (.syntaxError "expected operand")
    else .ok (.Other "BinaryExpr")
  ParseFloat := fun text => some (.float text)
  Atoi := fun text => text.toInt?
  Unquote := fun text => some text
  callFunction := fun f _ runner =>
    if f = "Log" then (runner.SetVar LoggingPlugin (.object "log"), .ok (.object "log"))
    else (runner, .ok .null)
  evaluateExpr := fun runner n =>
    match n with
    | .BasicLit .STRING text => (runner, .ok (.str text))
    | _ => (runner, .error (.evaluation "not supported"))

/-- A runner without variables. -/
def emptyRunner : Runner := ⟨[]⟩

end ForceRunner

namespace Kube

/-! ## Theorems -/

/-- Reading a key after an assignment. -/
theorem GoMap.get_set {α : Type} (m : GoMap α) (k : String) (v : α) (key : String) :
    (m.set k v).get key = if k = key then some v else m.get key := by
  induction m with
  | nil => simp [GoMap.set, GoMap.get]
  | cons hd tl ih =>
    obtain ⟨k0, w⟩ := hd
    by_cases h0 : k0 = k
    · subst h0
      by_cases h1 : k0 = key <;> simp [GoMap.set, GoMap.get, h1]
    · by_cases h1 : k0 = key
      · subst h1
        have h2 : ¬ k = k0 := fun h => h0 h.symm
        simp [GoMap.set, GoMap.get, h0, h2]
      · simp [GoMap.set, GoMap.get, h0, h1, ih]

/-- An assignment keeps the keys distinct. -/
theorem GoMap.keys_set_nodup {α : Type} (m : GoMap α) (k : String) (v : α)
    (h : m.keys.Nodup) : (m.set k v).keys.Nodup := by
  have hmem : ∀ (m : GoMap α) (x : String), x ∈ (m.set k v).keys → x = k ∨ x ∈ m.keys := by
    intro m
    induction m with
    | nil => intro x hx; simpa [GoMap.set, GoMap.keys] using hx
    | cons hd tl ih =>
      obtain ⟨k0, w⟩ := hd
      intro x hx
      by_cases h0 : k0 = k
      · simp only [GoMap.set, h0, if_true, GoMap.keys, List.map_cons, List.mem_cons] at hx
        rcases hx with hx | hx
        · exact Or.inl hx
        · right; simp only [GoMap.keys, List.map_cons, List.mem_cons]; exact Or.inr hx
      · simp only [GoMap.set, h0, if_false, GoMap.keys, List.map_cons, List.mem_cons] at hx
        rcases hx with hx | hx
        · right; simp only [GoMap.keys, List.map_cons, List.mem_cons]; exact Or.inl hx
        · rcases ih x hx with h1 | h1
          · exact Or.inl h1
          · right; simp only [GoMap.keys, List.map_cons, List.mem_cons]; exact Or.inr h1
  induction m with
  | nil => simp [GoMap.set, GoMap.keys]
  | cons hd tl ih =>
    obtain ⟨k0, w⟩ := hd
    simp only [GoMap.keys, List.map_cons, List.nodup_cons] at h
    by_cases h0 : k0 = k
    · simp only [GoMap.set, h0, if_true, GoMap.keys, List.map_cons, List.nodup_cons]
      exact ⟨h0 ▸ h.1, h.2⟩
    · simp only [GoMap.set, h0, if_false, GoMap.keys, List.map_cons, List.nodup_cons]
      refine ⟨?_, ih h.2⟩
      intro hx
      rcases hmem tl k0 hx with h1 | h1
      · exact h0 h1
      · exact h.1 h1

/-- The effect of the owner-reference loop on a lookup. -/
theorem collectRefs_get (job : Job) (pod : Pod) (refs : List OwnerReference) (pods : PodSet)
    (name : String) :
    (collectRefs job pod refs pods).get name =
      if pod.Name = name ∧ ∃ ref ∈ refs, ref.Kind = KindJob ∧ ref.UID = job.UID then some pod
      else pods.get name := by
  induction refs generalizing pods with
  | nil => simp [collectRefs]
  | cons ref refs ih =>
    by_cases hm : ref.Kind = KindJob ∧ ref.UID = job.UID
    · rw [collectRefs, if_pos hm, ih, GoMap.get_set]
      by_cases hn : pod.Name = name
      · have hB : pod.Name = name ∧ ∃ r ∈ ref :: refs, r.Kind = KindJob ∧ r.UID = job.UID :=
          ⟨hn, ref, List.mem_cons_self _ _, hm⟩
        rw [if_pos hB]
        by_cases hA : pod.Name = name ∧ ∃ r ∈ refs, r.Kind = KindJob ∧ r.UID = job.UID
        · rw [if_pos hA]
        · rw [if_neg hA, if_pos hn]
      · have hB : ¬ (pod.Name = name ∧ ∃ r ∈ ref :: refs, r.Kind = KindJob ∧ r.UID = job.UID) :=
          fun h => hn h.1
        have hA : ¬ (pod.Name = name ∧ ∃ r ∈ refs, r.Kind = KindJob ∧ r.UID = job.UID) :=
          fun h => hn h.1
        rw [if_neg hB, if_neg hA, if_neg hn]
    · rw [collectRefs, if_neg hm, ih]
      have : (∃ r ∈ ref :: refs, r.Kind = KindJob ∧ r.UID = job.UID) ↔
          ∃ r ∈ refs, r.Kind = KindJob ∧ r.UID = job.UID := by
        constructor
        · rintro ⟨r, hr, hk⟩
          rcases List.mem_cons.mp hr with h | h
          · exact absurd (h ▸ hk) hm
          · exact ⟨r, h, hk⟩
        · rintro ⟨r, hr, hk⟩
          exact ⟨r, List.mem_cons_of_mem _ hr, hk⟩
      simp only [this]

/-- The owner-reference loop keeps the keys distinct. -/
theorem collectRefs_nodup (job : Job) (pod : Pod) (refs : List OwnerReference) (pods : PodSet)
    (h : pods.keys.Nodup) : (collectRefs job pod refs pods).keys.Nodup := by
  induction refs generalizing pods with
  | nil => simpa [collectRefs] using h
  | cons ref refs ih =>
    by_cases hm : ref.Kind = KindJob ∧ ref.UID = job.UID
    · rw [collectRefs, if_pos hm]; exact ih _ (GoMap.keys_set_nodup _ _ _ h)
    · rw [collectRefs, if_neg hm]; exact ih _ h

/-- Which keys the item loop leaves in the map. -/
theorem collectItems_isSome (job : Job) (items : List Pod) (pods : PodSet) (name : String) :
    ((collectItems job items pods).get name).isSome = true ↔
      (pods.get name).isSome = true ∨ ∃ pod ∈ items, pod.Name = name ∧ ownedBy job pod := by
  induction items generalizing pods with
  | nil => simp [collectItems]
  | cons pod items ih =>
    rw [collectItems, ih, collectRefs_get]
    by_cases hc : pod.Name = name ∧ ∃ ref ∈ pod.OwnerReferences, ref.Kind = KindJob ∧ ref.UID = job.UID
    · rw [if_pos hc]
      constructor
      · intro _; exact Or.inr ⟨pod, List.mem_cons_self _ _, hc.1, hc.2⟩
      · intro _; exact Or.inl rfl
    · rw [if_neg hc]
      constructor
      · rintro (h | ⟨q, hq, hn, ho⟩)
        · exact Or.inl h
        · exact Or.inr ⟨q, List.mem_cons_of_mem _ hq, hn, ho⟩
      · rintro (h | ⟨q, hq, hn, ho⟩)
        · exact Or.inl h
        · rcases List.mem_cons.mp hq with h | h
          · subst h; exact absurd ⟨hn, ho⟩ hc
          · exact Or.inr ⟨q, h, hn, ho⟩

/-- Every value the item loop leaves in the map was there before or is an owned item
stored under its own name. -/
theorem collectItems_get_some (job : Job) (items : List Pod) (pods : PodSet) (name : String)
    (p : Pod) (h : (collectItems job items pods).get name = some p) :
    pods.get name = some p ∨ (p ∈ items ∧ p.Name = name ∧ ownedBy job p) := by
  induction items generalizing pods with
  | nil => exact Or.inl (by simpa [collectItems] using h)
  | cons pod items ih =>
    rw [collectItems] at h
    rcases ih _ h with h1 | ⟨h1, h2, h3⟩
    · rw [collectRefs_get] at h1
      by_cases hc : pod.Name = name ∧ ∃ ref ∈ pod.OwnerReferences, ref.Kind = KindJob ∧ ref.UID = job.UID
      · rw [if_pos hc] at h1
        have hp : pod = p := by simpa using h1
        subst hp
        exact Or.inr ⟨List.mem_cons_self _ _, hc.1, hc.2⟩
      · rw [if_neg hc] at h1; exact Or.inl h1
    · exact Or.inr ⟨List.mem_cons_of_mem _ h1, h2, h3⟩

/-- The item loop keeps the keys distinct. -/
theorem collectItems_nodup (job : Job) (items : List Pod) (pods : PodSet)
    (h : pods.keys.Nodup) : (collectItems job items pods).keys.Nodup := by
  induction items generalizing pods with
  | nil => simpa [collectItems] using h
  | cons pod items ih => rw [collectItems]; exact ih _ (collectRefs_nodup _ _ _ _ h)

/-- C1: when the fetch succeeded, getJobStatus returns no error exactly when either no
completion count is set, succeeded > 0 and active = 0, or a completion count k is set
and succeeded >= k; in every other case it returns a CompareFailed error. The examples
of the design document evaluate as stated. -/
theorem C1_getJobStatus_complete_iff :
    (∀ job : Job,
      (getJobStatus (.ok job) = none ↔
        ((job.Completions = none ∧ job.Succeeded > 0 ∧ job.Active = 0) ∨
          ∃ k, job.Completions = some k ∧ job.Succeeded ≥ k)) ∧
      (getJobStatus (.ok job) = none ∨
        getJobStatus (.ok job) = some (.compareFailed job.Succeeded job.Active))) ∧
    (∀ n ns u, getJobStatus (.ok ⟨n, ns, u, none, 0, 2⟩) = some (.compareFailed 0 2)) ∧
    (∀ n ns u, getJobStatus (.ok ⟨n, ns, u, none, 1, 1⟩) = some (.compareFailed 1 1)) ∧
    (∀ n ns u, getJobStatus (.ok ⟨n, ns, u, none, 1, 0⟩) = none) ∧
    (∀ n ns u, getJobStatus (.ok ⟨n, ns, u, some 3, 2, 5⟩) = some (.compareFailed 2 5)) ∧
    (∀ n ns u, getJobStatus (.ok ⟨n, ns, u, some 3, 3, 5⟩) = none) := by
  refine ⟨?_, ?_, ?_, ?_, ?_, ?_⟩
  · intro job
    constructor
    · cases hc : job.Completions with
      | none => simp [getJobStatus, jobComplete, hc]
      | some k => simp [getJobStatus, jobComplete, hc]
    · unfold getJobStatus
      by_cases hj : jobComplete job <;> simp [hj]
  all_goals intro n ns u; simp [getJobStatus, jobComplete]

/-- C4: for every pod list the cluster returns, collectPods succeeds with a map that has
a key exactly for the names of listed pods carrying an owner reference of kind Job with
the job's UID; every stored pod is such a listed pod and is stored under its own name
(so a pod that only matches the label selector is never stored); keys are distinct. A
failed list call is returned as the error. -/
theorem C4_collectPods_owned_only (job : Job) (items : List Pod) :
    ∃ pods : PodSet, collectPods job (.ok items) = .ok pods ∧
      (∀ name, (pods.get name).isSome = true ↔
        ∃ pod ∈ items, pod.Name = name ∧ ownedBy job pod) ∧
      (∀ name pod, pods.get name = some pod →
        pod.Name = name ∧ pod ∈ items ∧ ownedBy job pod) ∧
      (∀ pod ∈ items, ¬ ownedBy job pod → pods.get pod.Name ≠ some pod) ∧
      pods.keys.Nodup ∧
      ∀ e, collectPods job (.error e) = .error e := by
  refine ⟨collectItems job items [], rfl, ?_, ?_, ?_, ?_, ?_⟩
  · intro name
    rw [collectItems_isSome]
    simp [GoMap.get]
  · intro name pod h
    rcases collectItems_get_some job items [] name pod h with h1 | ⟨h1, h2, h3⟩
    · simp [GoMap.get] at h1
    · exact ⟨h2, h1, h3⟩
  · intro pod _ hno h
    rcases collectItems_get_some job items [] pod.Name pod h with h1 | ⟨_, _, h3⟩
    · simp [GoMap.get] at h1
    · exact hno h3
  · exact collectItems_nodup job items [] (by simp [GoMap.keys])
  · intro e; rfl

/-- The suffix test of Go, stated with a witness for the part in front. -/
theorem HasSuffix_iff (s suffix : String) :
    HasSuffix s suffix = true ↔ ∃ front : String, s = front ++ suffix := by
  unfold HasSuffix
  simp only [Bool.and_eq_true, decide_eq_true_eq]
  constructor
  · rintro ⟨_, hdrop⟩
    refine ⟨⟨s.data.take (s.data.length - suffix.data.length)⟩, ?_⟩
    apply String.ext
    rw [String.data_append]
    have := List.take_append_drop (s.data.length - suffix.data.length) s.data
    rw [hdrop] at this
    exact this.symm
  · rintro ⟨front, rfl⟩
    rw [String.data_append]
    refine ⟨by simp, ?_⟩
    exact List.drop_left' (by simp)

/-- C9: IsStreamClosedError is true exactly for a non-nil error whose unwrapped cause is
io.EOF or whose message ends with "response body closed"; it is false for nil;
IsClosedResponseBodyErrorMessage is exactly that suffix test; and the copy goroutine
logs its warning exactly for the non-nil errors that IsStreamClosedError rejects. -/
theorem C9_IsStreamClosedError_iff :
    (∀ err : Option CopyError, IsStreamClosedError err = true ↔
      ∃ e, err = some e ∧
        (e.unwrapsToEOF = true ∨ ∃ front : String, e.message = front ++ "response body closed")) ∧
    IsStreamClosedError none = false ∧
    (∀ msg : String, IsClosedResponseBodyErrorMessage msg = true ↔
      ∃ front : String, msg = front ++ "response body closed") ∧
    (∀ err : Option CopyError, copyWarns err = true ↔
      ∃ e, err = some e ∧ e.unwrapsToEOF = false ∧
        ¬ ∃ front : String, e.message = front ++ "response body closed") := by
  have hmsg : ∀ msg : String, IsClosedResponseBodyErrorMessage msg = true ↔
      ∃ front : String, msg = front ++ "response body closed" := fun msg =>
    HasSuffix_iff msg "response body closed"
  have hmain : ∀ err : Option CopyError, IsStreamClosedError err = true ↔
      ∃ e, err = some e ∧
        (e.unwrapsToEOF = true ∨ ∃ front : String, e.message = front ++ "response body closed") := by
    intro err
    cases err with
    | none => simp [IsStreamClosedError]
    | some e =>
      simp only [IsStreamClosedError, Option.some.injEq, exists_eq_left']
      by_cases h1 : e.unwrapsToEOF = true
      · simp [h1]
      · by_cases h2 : IsClosedResponseBodyErrorMessage e.message = true
        · simp [h1, h2, (hmsg e.message).mp h2]
        · have h3 : ¬ ∃ front : String, e.message = front ++ "response body closed" :=
            fun h => h2 ((hmsg e.message).mpr h)
          simp [h1, h2, h3]
  refine ⟨hmain, rfl, hmsg, ?_⟩
  intro err
  cases err with
  | none => simp [copyWarns]
  | some e =>
    have hm := hmain (some e)
    simp only [Option.some.injEq, exists_eq_left'] at hm ⊢
    simp only [copyWarns, Option.isSome_some, Bool.true_and, Bool.not_eq_true', ← Bool.not_eq_true, hm]
    exact not_or

/-- The container loop appends the streams of the qualifying containers. -/
theorem streamContainers_eq (firstRun : Bool) (pod : Pod) (cds : List ContainerDiff)
    (watches : List StreamTask) :
    streamContainers firstRun pod cds watches =
      watches ++ (cds.filter fun cd =>
        cd.new.State.Running.isSome || (firstRun && cd.new.State.Terminated.isSome)).map
          fun cd => ⟨pod.Name, cd.new.Name⟩ := by
  induction cds generalizing watches with
  | nil => simp [streamContainers]
  | cons cd rest ih =>
    by_cases h : (cd.new.State.Running.isSome ||
        (firstRun && cd.new.State.Terminated.isSome)) = true
    · rw [streamContainers, if_pos h, ih]
      simp [List.filter_cons, h]
    · rw [streamContainers, if_neg h, ih]
      simp [List.filter_cons, h]

/-- The diff loop appends, pod by pod, the streams of the qualifying containers. -/
theorem applyDiffs_watches (firstRun : Bool) (diffs : List PodDiff) (podSet : PodSet)
    (watches : List StreamTask) :
    (applyDiffs firstRun diffs podSet watches).2 =
      watches ++ diffs.flatMap fun diff =>
        (diff.containers.filter fun cd =>
          cd.new.State.Running.isSome || (firstRun && cd.new.State.Terminated.isSome)).map
            fun cd => ⟨diff.new.Name, cd.new.Name⟩ := by
  induction diffs generalizing podSet watches with
  | nil => simp [applyDiffs]
  | cons d rest ih =>
    rw [applyDiffs, ih, streamContainers_eq]
    simp

/-- C2: with a listing that never changes (the container is Running in every pass), the
passes made while one watch stays open start one stream, but the pass made after the
pod watch was re-opened starts a second stream for the same pod and container: the
first attempt ends with one stream and the retryable error of the closed channel, and
streamLogs returns with two streams for that pair. -/
theorem C2_second_stream_after_reopen :
    monitorPods diffPodSets demoJob [] monitorUnchanged = some ⟨[mainStream], none, []⟩ ∧
    streamLogsBody diffPodSets demoJob ⟨[], 0, []⟩ attemptDropped =
      some (⟨[mainStream], 1, []⟩, some (.retry "events channel closed")) ∧
    attemptAfterReopen.monitor.first = attemptDropped.monitor.first ∧
    streamLogs diffPodSets demoJob [attemptDropped, attemptAfterReopen] =
      some (⟨[mainStream, mainStream], 2, []⟩, none) ∧
    ∃ st err, streamLogs diffPodSets demoJob [attemptDropped, attemptAfterReopen] =
      some (st, err) ∧ st.watches.count mainStream = 2 := by
  refine ⟨by decide, by decide, rfl, by decide,
    ⟨[mainStream, mainStream], 2, []⟩, none, by decide, by decide⟩

/-- C3, as stated, fails: on the second pass of a run whose first pass started no
stream, a container reported as Terminated and not Running gets a stream. -/
theorem C3_terminated_streamed_on_second_pass :
    (checkJob diffPodSets demoJob [] [] (passPending stateWaiting)).watches = [] ∧
    (checkJob diffPodSets demoJob [] [] (passPending stateWaiting)).err =
      some (.compareFailed 0 1) ∧
    stateTerminated.Running = none ∧ stateTerminated.Terminated = some 0 ∧
    (checkJob diffPodSets demoJob
      (checkJob diffPodSets demoJob [] [] (passPending stateWaiting)).podSet
      (checkJob diffPodSets demoJob [] [] (passPending stateWaiting)).watches
      (passDone stateTerminated)).watches = [mainStream] ∧
    monitorPods diffPodSets demoJob [] monitorLateTerminated =
      some ⟨[mainStream], none, []⟩ := by
  refine ⟨by decide, by decide, rfl, rfl, by decide, by decide⟩

/-- C3, amended: when the pods were listed, the streams checkJob starts are, in the order
of the diff, those of the reported containers whose new status is Running, or whose new
status is Terminated while no stream is tracked when the pass begins. No stream is
tracked on the very first pass of a run, so there a Terminated container is streamed;
once a stream is tracked, a container that is Terminated and not Running gets none. A
failed listing starts nothing. -/
theorem C3_checkJob_stream_rule (differ : Differ) (job : Job) (podSet : PodSet)
    (watches : List StreamTask) (fetched : Except Err Job) :
    (∀ items, (checkJob differ job podSet watches ⟨.ok items, fetched⟩).watches =
      watches ++ streamsOf watches (differ podSet (collectItems job items []))) ∧
    (∀ cd, startsStream [] cd = (cd.new.State.Running.isSome || cd.new.State.Terminated.isSome)) ∧
    (∀ w ws cd, startsStream (w :: ws) cd = cd.new.State.Running.isSome) ∧
    (∀ e, (checkJob differ job podSet watches ⟨.error e, fetched⟩).watches = watches) ∧
    (∀ items steps pause rest,
      streamLogs differ job (⟨none, ⟨⟨.ok items, .ok demoJobDone⟩, steps⟩, pause⟩ :: rest) =
        some (⟨streamsOf [] (differ [] (collectItems job items [])), 1, []⟩, none)) := by
  have hpass : ∀ (podSet : PodSet) (watches : List StreamTask) (fetched : Except Err Job)
      (items : List Pod), (checkJob differ job podSet watches ⟨.ok items, fetched⟩).watches =
      watches ++ streamsOf watches (differ podSet (collectItems job items [])) := by
    intro podSet watches fetched items
    simp only [checkJob, collectPods, applyDiffs_watches, streamsOf]
    cases watches with
    | nil =>
      have h : startsStream [] = fun cd : ContainerDiff =>
          cd.new.State.Running.isSome || cd.new.State.Terminated.isSome := by
        funext cd; simp [startsStream]
      simp [h]
    | cons w ws =>
      have h : startsStream (w :: ws) = fun cd : ContainerDiff =>
          cd.new.State.Running.isSome := by
        funext cd; simp [startsStream]
      simp [h]
  refine ⟨?_, ?_, ?_, ?_, ?_⟩
  · exact hpass podSet watches fetched
  · intro cd; simp [startsStream]
  · intro w ws cd; simp [startsStream]
  · intro e; simp [checkJob, collectPods]
  · intro items steps pause rest
    have h1 := hpass [] [] (.ok demoJobDone) items
    have h2 : (checkJob differ job [] [] ⟨.ok items, .ok demoJobDone⟩).err = none := by
      simp only [checkJob, collectPods]
      rfl
    simp only [streamLogs, retryWithInterval, streamLogsBody, monitorPods]
    generalize checkJob differ job [] [] ⟨.ok items, .ok demoJobDone⟩ = res at h1 h2
    obtain ⟨ps, ws, e⟩ := res
    simp only at h1 h2
    subst h1 h2
    simp [traceWrap]

/-- A select whose only ready case is the first one takes it. -/
theorem goSelect_only_first (pick : Nat) : goSelect [true, false, false] pick = some 0 := by
  simp [goSelect, readyCases, Nat.mod_one]

/-- A select with two ready cases takes one of them. -/
theorem goSelect_both (pick : Nat) :
    goSelect [true, true] pick = some 0 ∨ goSelect [true, true] pick = some 1 := by
  rcases Nat.mod_two_eq_zero_or_one pick with h | h <;> simp [goSelect, readyCases, h]

/-- A select whose second case alone is ready takes it. -/
theorem goSelect_only_second (pick : Nat) : goSelect [false, true] pick = some 1 := by
  simp [goSelect, readyCases, Nat.mod_one]

/-- A select whose last two cases of three are ready takes one of them. -/
theorem goSelect_last_two (pick : Nat) :
    goSelect [false, true, true] pick = some 1 ∨ goSelect [false, true, true] pick = some 2 := by
  rcases Nat.mod_two_eq_zero_or_one pick with h | h <;> simp [goSelect, readyCases, h]

/-- Once the caller's context is done the drain loop takes one case at every stream,
whether or not the stream has finished, and so returns within as many moments as there
are streams. -/
theorem drainLoop_ctx_done (ws : List StreamTask) (obs : List DrainObs)
    (awaited : List StreamTask) (hctx : ∀ o ∈ obs, o.ctxDone = true)
    (hlen : ws.length ≤ obs.length) :
    ∃ err aw, drainLoop ws obs awaited = some (err, aw) ∧ (err = none ∨ err = some .canceled) := by
  induction ws generalizing obs awaited with
  | nil => exact ⟨none, awaited, by simp [drainLoop], Or.inl rfl⟩
  | cons w ws ih =>
    cases obs with
    | nil => simp at hlen
    | cons o os =>
      have ho : o.ctxDone = true := hctx o (List.mem_cons_self _ _)
      have hos : ∀ d ∈ os, d.ctxDone = true := fun d hd => hctx d (List.mem_cons_of_mem _ hd)
      have hl : ws.length ≤ os.length := by simpa using hlen
      rcases goSelect_both o.pick with h | h
      · exact ⟨some .canceled, awaited, by simp [drainLoop, ho, h], Or.inr rfl⟩
      · obtain ⟨err, aw, h1, h2⟩ := ih os (awaited ++ [w]) hos hl
        exact ⟨err, aw, by simp [drainLoop, ho, h, h1], h2⟩

/-- C5: when validation fails Run returns that error at once and has made no create call;
when building the spec fails it returns that error at once; when the create call fails
it returns that error at once. In all three cases the completion watcher was not
started, no pod watch was opened and no stream was started, whatever the rest of the
environment holds. -/
theorem C5_Run_fails_fast (differ : Differ) (env : RunEnv) :
    (∀ e, Run differ { env with validate := some e } =
      some ⟨false, false, 0, [], [], none, some e⟩) ∧
    (∀ e, Run differ { env with validate := none, spec := .error e } =
      some ⟨false, false, 0, [], [], none, some e⟩) ∧
    (∀ e spec, Run differ { env with validate := none, spec := .ok spec, create := .error e } =
      some ⟨true, false, 0, [], [], none, some e⟩) := by
  refine ⟨?_, ?_, ?_⟩
  · intro e; simp [Run, traceWrap]
  · intro e; simp [Run, traceWrap]
  · intro e spec; simp [Run, traceWrap]

/-- What the last select of Run can return. -/
theorem finalSelect_result (waitResult : Option (Option Err)) (obs : List FinalObs)
    (res : Option Err) (h : finalSelect waitResult obs = some res) :
    waitResult = some res ∨ res = some .canceled := by
  induction obs with
  | nil => simp [finalSelect] at h
  | cons o os ih =>
    simp only [finalSelect] at h
    split at h
    · exact ih h
    · cases waitResult with
      | none => exact ih h
      | some w =>
        simp only [traceWrap, Option.some.injEq] at h
        exact Or.inl (by rw [h])
    · simp only [Option.some.injEq] at h
      exact Or.inr h.symm

/-- A select whose first case alone is ready takes it. -/
theorem goSelect_first_of_two (pick : Nat) : goSelect [true, false] pick = some 0 := by
  simp [goSelect, readyCases, Nat.mod_one]

/-- C6: once the job was created, a value Run returns is the result of wait or the
cancellation error of the caller's context; the error of streamLogs is found in the
warning only, and a run that differs in nothing but what streamLogs met returns the same
value. When streamLogs has returned, the result of wait is delivered and the caller's
context is not done, Run returns the result of wait, whatever streamLogs returned. -/
theorem C6_Run_result_from_wait_or_cancel (differ : Differ) (env : RunEnv) (spec job : Job)
    (r : RunResult)
    (h : Run differ { env with validate := none, spec := .ok spec, create := .ok job } = some r) :
    (wait env.waitEnv = some r.result ∨ r.result = some .canceled) ∧
    (∃ st, streamLogs differ job env.streamEnv = some (st, r.warning)) ∧
    (∀ streamEnv r2,
      Run differ
        { env with
          validate := none, spec := .ok spec, create := .ok job, streamEnv := streamEnv } =
        some r2 → r2.result = r.result) ∧
    (∀ st serr w pick os, streamLogs differ job env.streamEnv = some (st, serr) →
      wait env.waitEnv = some w →
      Run differ
        { env with
          validate := none, spec := .ok spec, create := .ok job,
          final := ⟨true, false, pick⟩ :: os } =
        some ⟨true, true, st.opened, st.watches, st.awaited, serr, w⟩) := by
  have hlast : ∀ st serr w pick os, streamLogs differ job env.streamEnv = some (st, serr) →
      wait env.waitEnv = some w →
      Run differ
        { env with
          validate := none, spec := .ok spec, create := .ok job,
          final := ⟨true, false, pick⟩ :: os } =
        some ⟨true, true, st.opened, st.watches, st.awaited, serr, w⟩ := by
    intro st serr w pick os hs hw
    simp [Run, hs, hw, finalSelect, goSelect_first_of_two, traceWrap]
  simp only [Run] at h
  cases hs : streamLogs differ job env.streamEnv with
  | none => simp [hs] at h
  | some p =>
    obtain ⟨st, serr⟩ := p
    cases hf : finalSelect (wait env.waitEnv) env.final with
    | none => simp [hs, hf] at h
    | some res =>
      simp only [hs, hf, Option.some.injEq] at h
      subst h
      refine ⟨finalSelect_result _ _ _ hf, ⟨st, rfl⟩, ?_,
        fun st1 serr1 w pick os hs1 hw => hlast st1 serr1 w pick os (hs.trans hs1) hw⟩
      intro streamEnv r2 h2
      simp only [Run] at h2
      cases hs2 : streamLogs differ job streamEnv with
      | none => simp [hs2] at h2
      | some p2 =>
        obtain ⟨st2, serr2⟩ := p2
        simp only [hs2, hf, Option.some.injEq] at h2
        subst h2
        rfl

/-- C6 at a run whose job is complete on the first pass. -/
theorem C6_Run_result_from_wait_or_cancel_witness :
    Run diffPodSets runAlreadyComplete =
      some ⟨true, true, 1, [mainStream], [], none, none⟩ ∧
    (wait runAlreadyComplete.waitEnv = some none ∨ (none : Option Err) = some .canceled) ∧
    (∃ st, streamLogs diffPodSets demoJob runAlreadyComplete.streamEnv = some (st, none)) :=
  ⟨by decide,
    (C6_Run_result_from_wait_or_cancel diffPodSets runAlreadyComplete demoJob demoJob
      ⟨true, true, 1, [mainStream], [], none, none⟩ (by decide)).1,
    (C6_Run_result_from_wait_or_cancel diffPodSets runAlreadyComplete demoJob demoJob
      ⟨true, true, 1, [mainStream], [], none, none⟩ (by decide)).2.1⟩

/-- C7: in the retry body of streamLogs and of wait, a watch that cannot be opened gives
an error in the permanent wrapper, and the retry loop returns it without another
attempt. When the job is not complete after the first pass and the events channel of the
opened watch is closed, monitorPods returns the retry error together with the streams
it tracks, unchanged; the body of streamLogs hands that error on outside the permanent
wrapper, and the retry loop goes on to the next attempt, which opens a watch again. -/
theorem C7_open_failure_permanent_closed_channel_retried (differ : Differ) (job : Job)
    (st : StreamState) (first pass : PassEnv) (pick : Nat) (drain : List DrainObs)
    (steps : List LoopStep) (rest : List StreamAttempt) (e0 : Err)
    (h : (checkJob differ job [] st.watches first).err = some e0) :
    (∀ podSet watches, monitorLoop differ job podSet watches
        (⟨⟨.closed, false, false, pick⟩, pass, drain⟩ :: steps) =
      some ⟨watches, some (.retry "events channel closed"), []⟩) ∧
    monitorPods differ job st.watches
        ⟨first, ⟨⟨.closed, false, false, pick⟩, pass, drain⟩ :: steps⟩ =
      some ⟨(checkJob differ job [] st.watches first).watches,
        some (.retry "events channel closed"), []⟩ ∧
    streamLogsBody differ job st
        ⟨none, ⟨first, ⟨⟨.closed, false, false, pick⟩, pass, drain⟩ :: steps⟩, false⟩ =
      some (⟨(checkJob differ job [] st.watches first).watches, st.opened + 1, st.awaited⟩,
        some (.retry "events channel closed")) ∧
    retryWithInterval (streamLogsBody differ job) StreamAttempt.ctxDoneInPause st
        (⟨none, ⟨first, ⟨⟨.closed, false, false, pick⟩, pass, drain⟩ :: steps⟩, false⟩ :: rest) =
      retryWithInterval (streamLogsBody differ job) StreamAttempt.ctxDoneInPause
        ⟨(checkJob differ job [] st.watches first).watches, st.opened + 1, st.awaited⟩ rest ∧
    (∀ e mon pause,
      streamLogsBody differ job st ⟨some e, mon, pause⟩ =
        some (⟨st.watches, st.opened + 1, st.awaited⟩, some (.permanent e)) ∧
      retryWithInterval (streamLogsBody differ job) StreamAttempt.ctxDoneInPause st
          (⟨some e, mon, pause⟩ :: rest) =
        some (⟨st.watches, st.opened + 1, st.awaited⟩, some e)) ∧
    (∀ e ev pause more,
      waitBody () ⟨some e, ev, pause⟩ = some ((), some (.permanent e)) ∧
      wait (⟨some e, ev, pause⟩ :: more) = some (some e)) := by
  have hloop : ∀ podSet watches, monitorLoop differ job podSet watches
      (⟨⟨.closed, false, false, pick⟩, pass, drain⟩ :: steps) =
      some ⟨watches, some (.retry "events channel closed"), []⟩ := by
    intro podSet watches
    simp [monitorLoop, goSelect_only_first]
  have hmon : monitorPods differ job st.watches
      ⟨first, ⟨⟨.closed, false, false, pick⟩, pass, drain⟩ :: steps⟩ =
      some ⟨(checkJob differ job [] st.watches first).watches,
        some (.retry "events channel closed"), []⟩ := by
    simp only [monitorPods]
    generalize checkJob differ job [] st.watches first = res at h
    obtain ⟨ps, ws, e⟩ := res
    simp only at h
    subst h
    simp only [hloop]
  have hbody : streamLogsBody differ job st
      ⟨none, ⟨first, ⟨⟨.closed, false, false, pick⟩, pass, drain⟩ :: steps⟩, false⟩ =
      some (⟨(checkJob differ job [] st.watches first).watches, st.opened + 1, st.awaited⟩,
        some (.retry "events channel closed")) := by
    simp [streamLogsBody, hmon, IsRetryError, traceWrap]
  refine ⟨hloop, hmon, hbody, ?_, ?_, ?_⟩
  · simp only [retryWithInterval, hbody]
    simp
  · intro e mon pause
    have hb : streamLogsBody differ job st ⟨some e, mon, pause⟩ =
        some (⟨st.watches, st.opened + 1, st.awaited⟩, some (.permanent e)) := by
      simp [streamLogsBody]
    exact ⟨hb, by simp only [retryWithInterval, hb]⟩
  · intro e ev pause more
    have hb : waitBody () ⟨some e, ev, pause⟩ = some ((), some (.permanent e)) := by
      simp [waitBody]
    exact ⟨hb, by simp only [wait, retryWithInterval, hb, traceWrap]⟩

/-- C7 at the first attempt of a run whose container is running when the watch drops. -/
theorem C7_open_failure_permanent_closed_channel_retried_witness :
    (checkJob diffPodSets demoJob [] [] (passPending stateRunning)).err =
      some (.compareFailed 0 1) ∧
    monitorPods diffPodSets demoJob []
        ⟨passPending stateRunning,
          ⟨⟨.closed, false, false, 0⟩, passPending stateRunning, []⟩ :: []⟩ =
      some ⟨(checkJob diffPodSets demoJob [] [] (passPending stateRunning)).watches,
        some (.retry "events channel closed"), []⟩ :=
  ⟨by decide,
    (C7_open_failure_permanent_closed_channel_retried diffPodSets demoJob ⟨[], 0, []⟩
      (passPending stateRunning) (passPending stateRunning) 0 [] [] [attemptAfterReopen]
      (.compareFailed 0 1) (by decide)).2.1⟩

/-- C8: when the first pass starts the stream of a terminated container and finds the job
complete, monitorPods returns at once with that stream tracked and none awaited, the
caller's context not being done at any moment; streamLogs and Run return likewise,
Run with the success of the watcher. The job-finished case of the loop, in contrast,
returns after the Done of the tracked stream was received. -/
theorem C8_returns_without_draining :
    monitorPods diffPodSets demoJob [] monitorDrained =
      some ⟨[mainStream], none, [mainStream]⟩ ∧
    monitorPods diffPodSets demoJob [] ⟨passDone stateTerminated, []⟩ =
      some ⟨[mainStream], none, []⟩ ∧
    streamLogs diffPodSets demoJob runAlreadyComplete.streamEnv =
      some (⟨[mainStream], 1, []⟩, none) ∧
    Run diffPodSets runAlreadyComplete =
      some ⟨true, true, 1, [mainStream], [], none, none⟩ ∧
    runAlreadyComplete.final.all (fun o => !o.ctxDone) = true := by
  refine ⟨by decide, by decide, by decide, by decide, by decide⟩

/-- With the caller's context done, the last select of Run returns at the first moment:
the cancellation error, or the delivered result of the watcher. -/
theorem finalSelect_ctx_done (waitResult : Option (Option Err)) (o : FinalObs)
    (os : List FinalObs) (hctx : o.ctxDone = true) :
    ∃ res, finalSelect waitResult (o :: os) = some res ∧
      (res = some .canceled ∨ (o.waitDelivered = true ∧ waitResult = some res)) ∧
      (o.waitDelivered = false ∨ waitResult = none → res = some .canceled) := by
  cases hw : waitResult with
  | none =>
    refine ⟨some .canceled, ?_, Or.inl rfl, fun _ => rfl⟩
    simp [finalSelect, hctx, goSelect_only_second]
  | some w =>
    cases hd : o.waitDelivered with
    | false =>
      refine ⟨some .canceled, ?_, Or.inl rfl, fun _ => rfl⟩
      simp [finalSelect, hctx, hd, goSelect_only_second]
    | true =>
      rcases goSelect_both o.pick with h | h
      · refine ⟨w, ?_, Or.inr ⟨rfl, rfl⟩, ?_⟩
        · simp [finalSelect, hctx, hd, h, traceWrap]
        · rintro (h1 | h1) <;> simp at h1
      · refine ⟨some .canceled, ?_, Or.inl rfl, fun _ => rfl⟩
        simp [finalSelect, hctx, hd, h]

/-- C10, as stated, fails: with the job-finished signal and the caller's cancellation both
fired at the select of the loop and at the last select of Run, the drain loop runs (it
receives the Done of the stream, which has not finished copying) and Run returns the
result of the watcher, success, instead of the cancellation. -/
theorem C10_cancellation_has_no_priority :
    Run diffPodSets runBothFired =
      some ⟨true, true, 1, [mainStream], [mainStream], none, none⟩ ∧
    runBothFired.final.all (fun o => o.ctxDone) = true ∧
    runBothFired.streamEnv.all (fun a =>
      a.monitor.steps.all fun s =>
        s.obs.ctxDone && s.obs.jobDone && s.drain.all fun d => d.ctxDone && !d.streamDone) = true ∧
    (none : Option Err) ≠ some .canceled := by
  refine ⟨by decide, by decide, by decide, by decide⟩

/-- C10, amended: once the caller's context is done, and no pod event is pending, the
select of the loop of monitorPods takes the cancellation case or the job-finished case
at once; in the latter the drain loop takes one case at each stream, without waiting for
a stream that is still copying, and monitorPods returns its streams with no error or the
cancellation error. The last select of Run then returns at once: the cancellation
error when the result of the watcher has not been delivered, and either the cancellation
error or the delivered result of the watcher when both are ready. -/
theorem C10_cancelled_run_never_waits (differ : Differ) (job spec : Job) (env : RunEnv)
    (st : StreamState) (serr : Option Err) (o : FinalObs) (os : List FinalObs)
    (podSet : PodSet) (watches : List StreamTask) (step : LoopStep) (rest : List LoopStep)
    (hctx : o.ctxDone = true)
    (hs : streamLogs differ job env.streamEnv = some (st, serr))
    (hstep : step.obs.ctxDone = true) (hev : step.obs.events = .empty)
    (hdrain : ∀ d ∈ step.drain, d.ctxDone = true)
    (hlen : watches.length ≤ step.drain.length) :
    (∃ r, monitorLoop differ job podSet watches (step :: rest) = some r ∧
      r.watches = watches ∧ (r.err = none ∨ r.err = some .canceled)) ∧
    (∃ r,
      Run differ
        { env with
          validate := none, spec := .ok spec, create := .ok job, final := o :: os } = some r ∧
      (r.result = some .canceled ∨
        (o.waitDelivered = true ∧ wait env.waitEnv = some r.result)) ∧
      (o.waitDelivered = false ∨ wait env.waitEnv = none → r.result = some .canceled)) := by
  constructor
  · rcases goSelect_last_two step.obs.pick with h | h
    · exact ⟨⟨watches, none, []⟩, by simp [monitorLoop, hstep, hev, h], rfl, Or.inl rfl⟩
    · obtain ⟨err, aw, h1, h2⟩ := drainLoop_ctx_done watches step.drain [] hdrain hlen
      exact ⟨⟨watches, err, aw⟩, by simp [monitorLoop, hstep, hev, h, h1], rfl, h2⟩
  · obtain ⟨res, h1, h2, h3⟩ := finalSelect_ctx_done (wait env.waitEnv) o os hctx
    exact ⟨⟨true, true, st.opened, st.watches, st.awaited, serr, res⟩,
      by simp [Run, hs, h1], h2, h3⟩

/-- C10, amended, at a run cancelled while its stream is copying and the watcher has
not returned. -/
theorem C10_cancelled_run_never_waits_witness :
    (∃ r, monitorLoop diffPodSets demoJob [] [mainStream]
        (⟨⟨.empty, true, false, 1⟩, passPending stateRunning, [⟨true, false, 0⟩]⟩ :: []) =
          some r ∧
      r.watches = [mainStream] ∧ (r.err = none ∨ r.err = some .canceled)) ∧
    (∃ r,
      Run diffPodSets
        { runCancelled with
          validate := none, spec := .ok demoJob, create := .ok demoJob,
          final := ⟨false, true, 0⟩ :: [] } = some r ∧
      (r.result = some .canceled ∨
        (false = true ∧ wait runCancelled.waitEnv = some r.result)) ∧
      (false = false ∨ wait runCancelled.waitEnv = none → r.result = some .canceled)) :=
  C10_cancelled_run_never_waits diffPodSets demoJob demoJob runCancelled
    ⟨[mainStream], 1, []⟩ (some .canceled) ⟨false, true, 0⟩ [] [] [mainStream]
    ⟨⟨.empty, true, false, 1⟩, passPending stateRunning, [⟨true, false, 0⟩]⟩ []
    rfl (by decide) rfl rfl (by decide) (by decide)

end Kube

namespace ForceRunner

open Kube (GoMap)

/-- A key without value is not among the keys. -/
theorem get_none_iff {α : Type} (m : GoMap α) (k : String) :
    m.get k = none ↔ k ∉ m.keys := by
  induction m with
  | nil => simp [GoMap.get, GoMap.keys]
  | cons hd tl ih =>
    obtain ⟨k0, v0⟩ := hd
    by_cases h : k0 = k
    · simp [GoMap.get, GoMap.keys, h]
    · have h2 : ¬ k = k0 := fun e => h e.symm
      simp only [GoMap.get, if_neg h, ih, GoMap.keys, List.map_cons, List.mem_cons, not_or]
      exact ⟨fun hk => ⟨h2, hk⟩, fun hk => hk.2⟩

/-- Assigning a key without value appends the pair. -/
theorem set_of_get_none {α : Type} (m : GoMap α) (k : String) (v : α)
    (h : m.get k = none) : m.set k v = m ++ [(k, v)] := by
  induction m with
  | nil => simp [GoMap.set]
  | cons hd tl ih =>
    obtain ⟨k0, v0⟩ := hd
    by_cases h0 : k0 = k
    · simp [GoMap.get, h0] at h
    · simp only [GoMap.get, if_neg h0] at h
      simp [GoMap.set, h0, ih h]

/-- With distinct keys, a lookup finds exactly the pairs of the map. -/
theorem get_eq_some_iff {α : Type} (m : GoMap α) (hm : m.keys.Nodup) (k : String) (v : α) :
    m.get k = some v ↔ (k, v) ∈ m := by
  induction m with
  | nil => simp [GoMap.get]
  | cons hd tl ih =>
    obtain ⟨k0, v0⟩ := hd
    simp only [GoMap.keys, List.map_cons, List.nodup_cons] at hm
    by_cases h0 : k0 = k
    · subst h0
      simp only [GoMap.get, if_true, Option.some.injEq, List.mem_cons, Prod.mk.injEq, true_and]
      constructor
      · intro h; exact Or.inl h.symm
      · rintro (h | h)
        · exact h.symm
        · exact absurd (List.mem_map_of_mem Prod.fst h) hm.1
    · have h2 : ¬ k = k0 := fun e => h0 e.symm
      simp only [GoMap.get, if_neg h0, List.mem_cons, Prod.mk.injEq, h2, false_and, false_or]
      exact ih hm.2

/-- A successful `evaluateArguments` returns one value for each node. -/
theorem evaluateArguments_length (host : Host) (nodes : List Expr) (runner runner1 : Runner)
    (vals : List Value) (h : evaluateArguments host runner nodes = (runner1, .ok vals)) :
    vals.length = nodes.length := by
  induction nodes generalizing runner vals with
  | nil =>
    simp only [evaluateArguments, Prod.mk.injEq, Except.ok.injEq] at h
    obtain ⟨_, rfl⟩ := h
    rfl
  | cons n nodes ih =>
    simp only [evaluateArguments] at h
    split at h
    · simp at h
    · rename_i r1 val hev
      split at h
      · simp at h
      · rename_i r2 out hrest
        simp only [Prod.mk.injEq, Except.ok.injEq] at h
        obtain ⟨rfl, rfl⟩ := h
        rw [List.length_cons, List.length_cons, ih r1 out hrest]

/-- The keys after assigning a key without value. -/
theorem keys_set_of_get_none {α : Type} (m : GoMap α) (k : String) (v : α)
    (h : m.get k = none) : (m.set k v).keys = m.keys ++ [k] := by
  rw [set_of_get_none m k v h]
  simp [GoMap.keys]

/-- A successful loop of `evaluateStructFields` met only elements `key: value` with an
identifier as key, the keys distinct and not in the map yet, and appended each key with
the value of its expression. -/
theorem structFieldsLoop_ok (host : Host) (nodes : List Expr) (runner runner1 : Runner)
    (out m : GoMap Value)
    (h : structFieldsLoop host runner nodes out = (runner1, .ok m)) :
    ∃ (fields : List (String × Expr)) (vals : List Value), nodes = fields.map keyValue ∧
      evaluateArguments host runner (fields.map Prod.snd) = (runner1, .ok vals) ∧
      m = out ++ (fields.map Prod.fst).zip vals ∧
      (∀ k ∈ fields.map Prod.fst, k ∉ out.keys) ∧ (fields.map Prod.fst).Nodup := by
  induction nodes generalizing runner out with
  | nil =>
    simp only [structFieldsLoop, Prod.mk.injEq, Except.ok.injEq] at h
    obtain ⟨rfl, rfl⟩ := h
    exact ⟨[], [], rfl, rfl, by simp, by simp, by simp⟩
  | cons n nodes ih =>
    cases n with
    | KeyValueExpr key value =>
      cases key with
      | Ident name =>
        rcases hev : host.evaluateExpr runner value with ⟨r1, res⟩
        cases res with
        | error err => simp [structFieldsLoop, hev] at h
        | ok val =>
          simp only [structFieldsLoop, hev] at h
          split at h
          · simp at h
          · rename_i hnot
            have hnone : out.get name = none := by
              cases hg : out.get name with
              | none => rfl
              | some x => simp [hg] at hnot
            obtain ⟨fields, vals, hnodes, hargs, hm, hfresh, hnodup⟩ := ih r1 (out.set name val) h
            refine ⟨(name, value) :: fields, val :: vals, ?_, ?_, ?_, ?_, ?_⟩
            · simp [keyValue, hnodes]
            · simp only [List.map_cons, evaluateArguments, hev, hargs]
            · rw [hm, set_of_get_none out name val hnone]
              simp
            · intro k hk
              simp only [List.map_cons, List.mem_cons] at hk
              rcases hk with rfl | hk
              · exact (get_none_iff out k).mp hnone
              · have := hfresh k hk
                rw [keys_set_of_get_none out name val hnone] at this
                exact fun hmem => this (List.mem_append_left _ hmem)
            · simp only [List.map_cons, List.nodup_cons]
              refine ⟨?_, hnodup⟩
              intro hk
              have := hfresh name hk
              rw [keys_set_of_get_none out name val hnone] at this
              exact this (List.mem_append_right _ (List.mem_singleton_self _))
      | _ => simp [structFieldsLoop] at h
    | _ => simp [structFieldsLoop] at h

/-- The loop of `evaluateStructFields` on elements `key: value` whose values evaluate:
with keys distinct and not in the map yet it succeeds and appends each key with its
value; otherwise it stops with the duplicate error at a key of the elements. -/
theorem structFieldsLoop_fields (host : Host) (fields : List (String × Expr))
    (runner runner1 : Runner) (vals : List Value) (out : GoMap Value)
    (hv : evaluateArguments host runner (fields.map Prod.snd) = (runner1, .ok vals)) :
    (((∀ k ∈ fields.map Prod.fst, k ∉ out.keys) ∧ (fields.map Prod.fst).Nodup) →
      structFieldsLoop host runner (fields.map keyValue) out =
        (runner1, .ok (out ++ (fields.map Prod.fst).zip vals))) ∧
    (¬ ((∀ k ∈ fields.map Prod.fst, k ∉ out.keys) ∧ (fields.map Prod.fst).Nodup) →
      ∃ name r1, name ∈ fields.map Prod.fst ∧
        (name ∈ out.keys ∨ 1 < (fields.map Prod.fst).count name) ∧
        structFieldsLoop host runner (fields.map keyValue) out =
          (r1, .error (.duplicateStructField name))) := by
  induction fields generalizing runner out vals with
  | nil =>
    simp only [List.map_nil, evaluateArguments, Prod.mk.injEq, Except.ok.injEq] at hv
    obtain ⟨rfl, rfl⟩ := hv
    constructor
    · intro _; simp [structFieldsLoop]
    · intro h; exact absurd ⟨by simp, by simp⟩ h
  | cons f fields ih =>
    obtain ⟨name, value⟩ := f
    simp only [List.map_cons, evaluateArguments] at hv
    split at hv
    · simp at hv
    · rename_i r1 val hev
      split at hv
      · simp at hv
      · rename_i r2 rest hrest
        simp only [Prod.mk.injEq, Except.ok.injEq] at hv
        obtain ⟨rfl, rfl⟩ := hv
        cases hg : out.get name with
        | some x =>
          constructor
          · rintro ⟨hfresh, _⟩
            have := (get_none_iff out name).mpr (hfresh name (by simp))
            rw [hg] at this; cases this
          · intro _
            have hin : name ∈ out.keys := by
              by_contra hno
              rw [(get_none_iff out name).mpr hno] at hg
              cases hg
            exact ⟨name, r1, by simp, Or.inl hin,
              by simp [keyValue, structFieldsLoop, hev, hg]⟩
        | none =>
          have hkeys := keys_set_of_get_none out name val hg
          have hstep : structFieldsLoop host runner
              (List.map keyValue ((name, value) :: fields)) out =
              structFieldsLoop host r1 (fields.map keyValue) (out.set name val) := by
            simp [keyValue, structFieldsLoop, hev, hg]
          obtain ⟨ih1, ih2⟩ := ih r1 rest (out.set name val) hrest
          have hiff : ((∀ k ∈ fields.map Prod.fst, k ∉ (out.set name val).keys) ∧
              (fields.map Prod.fst).Nodup) ↔
              ((∀ k ∈ List.map Prod.fst ((name, value) :: fields), k ∉ out.keys) ∧
                (List.map Prod.fst ((name, value) :: fields)).Nodup) := by
            rw [hkeys, List.map_cons]
            constructor
            · rintro ⟨h1, h2⟩
              refine ⟨?_, List.nodup_cons.mpr ⟨fun hmem =>
                h1 name hmem (List.mem_append_right _ (List.mem_singleton_self _)), h2⟩⟩
              intro k hk
              rcases List.mem_cons.mp hk with rfl | hk
              · exact (get_none_iff out k).mp hg
              · exact fun hm => h1 k hk (List.mem_append_left _ hm)
            · rintro ⟨h1, h2⟩
              refine ⟨?_, (List.nodup_cons.mp h2).2⟩
              intro k hk hmem
              rcases List.mem_append.mp hmem with hm | hm
              · exact h1 k (List.mem_cons_of_mem _ hk) hm
              · have hkn : k = name := List.mem_singleton.mp hm
                subst hkn
                exact (List.nodup_cons.mp h2).1 hk
          constructor
          · intro h
            rw [hstep, ih1 (hiff.mpr h), set_of_get_none out name val hg]
            simp
          · intro h
            obtain ⟨nm, r3, hmem, hrep, heq⟩ := ih2 (fun h2 => h (hiff.mp h2))
            refine ⟨nm, r3, List.mem_cons_of_mem _ hmem, ?_, by rw [hstep, heq]⟩
            have hpos : 0 < (fields.map Prod.fst).count nm := List.count_pos_iff.mpr hmem
            rw [hkeys] at hrep
            rw [List.map_cons, List.count_cons]
            rcases hrep with h1 | h1
            · rcases List.mem_append.mp h1 with h2 | h2
              · exact Or.inl h2
              · have hkn : nm = name := List.mem_singleton.mp h2
                subst hkn
                right
                simp only [beq_self_eq_true, if_true]
                omega
            · right
              split <;> omega

/-- C12: evaluateStructFields succeeds only on elements that are all of the form
key: value with an identifier as key and with pairwise distinct keys; the map it then
returns has exactly those keys, each with the value its expression evaluated to (the
expressions being evaluated in order, as evaluateArguments does). On such elements,
whose values evaluate, it succeeds when the keys are distinct and otherwise returns the
"duplicate struct field" error for a key that occurs twice: a key that already has a
value is never assigned again. The error of a value that does not evaluate comes before
the duplicate check of its element. -/
theorem C12_evaluateStructFields_distinct_keys (host : Host) (runner : Runner) :
    (∀ nodes runner1 out, evaluateStructFields host runner nodes = (runner1, .ok out) →
      ∃ (fields : List (String × Expr)) (vals : List Value),
        nodes = fields.map keyValue ∧ (fields.map Prod.fst).Nodup ∧
        evaluateArguments host runner (fields.map Prod.snd) = (runner1, .ok vals) ∧
        out = (fields.map Prod.fst).zip vals ∧ out.keys = fields.map Prod.fst ∧
        ∀ k v, out.get k = some v ↔ (k, v) ∈ (fields.map Prod.fst).zip vals) ∧
    (∀ (fields : List (String × Expr)) runner1 vals,
      evaluateArguments host runner (fields.map Prod.snd) = (runner1, .ok vals) →
      ((fields.map Prod.fst).Nodup →
        evaluateStructFields host runner (fields.map keyValue) =
          (runner1, .ok ((fields.map Prod.fst).zip vals))) ∧
      (¬ (fields.map Prod.fst).Nodup →
        ∃ name r1, 1 < (fields.map Prod.fst).count name ∧
          evaluateStructFields host runner (fields.map keyValue) =
            (r1, .error (.duplicateStructField name)))) ∧
    (∀ (out : GoMap Value) name value nodes r1 val,
      host.evaluateExpr runner value = (r1, .ok val) → (out.get name).isSome = true →
      structFieldsLoop host runner (keyValue (name, value) :: nodes) out =
        (r1, .error (.duplicateStructField name))) ∧
    evaluateStructFields demoHost emptyRunner
        [keyValue ("Name", .BasicLit .STRING "a"), keyValue ("Image", .BasicLit .STRING "b")] =
      (emptyRunner, .ok [("Name", .str "a"), ("Image", .str "b")]) ∧
    evaluateStructFields demoHost emptyRunner
        [keyValue ("Name", .BasicLit .STRING "a"), keyValue ("Name", .BasicLit .STRING "b")] =
      (emptyRunner, .error (.duplicateStructField "Name")) ∧
    evaluateStructFields demoHost emptyRunner
        [keyValue ("Name", .BasicLit .STRING "a"), keyValue ("Name", .Ident "b")] =
      (emptyRunner, .error (.evaluation "not supported")) ∧
    evaluateStructFields demoHost emptyRunner
        [keyValue ("Name", .BasicLit .STRING "a"), .BasicLit .STRING "b"] =
      (emptyRunner, .error .expectedKeyValue) ∧
    evaluateStructFields demoHost emptyRunner
        [.KeyValueExpr (.BasicLit .STRING "Name") (.BasicLit .STRING "a")] =
      (emptyRunner, .error .expectedValueIdentifier) := by
  refine ⟨?_, ?_, ?_, rfl, rfl, rfl, rfl, rfl⟩
  · intro nodes runner1 out h
    obtain ⟨fields, vals, hnodes, hargs, hm, _, hnodup⟩ :=
      structFieldsLoop_ok host nodes runner runner1 [] out h
    have hlen : vals.length = (fields.map Prod.fst).length := by
      rw [evaluateArguments_length host _ runner runner1 vals hargs]
      simp
    have hout : out = (fields.map Prod.fst).zip vals := by simpa using hm
    have hkeys : out.keys = fields.map Prod.fst := by
      rw [hout]
      exact List.map_fst_zip _ _ (by omega)
    refine ⟨fields, vals, hnodes, hnodup, hargs, hout, hkeys, ?_⟩
    intro k v
    rw [get_eq_some_iff out (hkeys ▸ hnodup) k v, hout]
  · intro fields runner1 vals hargs
    obtain ⟨h1, h2⟩ := structFieldsLoop_fields host fields runner runner1 vals [] hargs
    constructor
    · intro hnodup
      have := h1 ⟨by simp [GoMap.keys], hnodup⟩
      simpa [evaluateStructFields] using this
    · intro hdup
      obtain ⟨name, r1, _, hrep, heq⟩ := h2 (fun h => hdup h.2)
      refine ⟨name, r1, ?_, heq⟩
      rcases hrep with h | h
      · simp [GoMap.keys] at h
      · exact h
  · intro out name value nodes r1 val hev hsome
    simp [keyValue, structFieldsLoop, hev, hsome]

/-- The loop of `Parse` over a list in two parts goes on with the second part exactly
when the first part gave no error. -/
theorem parseInputs_append (host : Host) (before rest : List String) (runner : Runner) :
    parseInputs host (before ++ rest) runner =
      match parseInputs host before runner with
      | (runner1, none) => parseInputs host rest runner1
      | (runner1, some err) => (runner1, some err) := by
  induction before generalizing runner with
  | nil => simp [parseInputs]
  | cons input before ih =>
    simp only [List.cons_append, parseInputs]
    cases hp : host.ParseExpr input with
    | error err => rfl
    | ok expr =>
      rcases hn : parseNode host runner expr with ⟨r1, res⟩
      cases res with
      | error err => simp only [hn]
      | ok v =>
        simp only [hn]
        exact ih r1

/-- An error of the loop of `Parse` is the error of the first input that does not parse
or does not evaluate, and the runner is as that input left it. -/
theorem parseInputs_error (host : Host) (inputs : List String) (runner runner2 : Runner)
    (err : ParseErr) (h : parseInputs host inputs runner = (runner2, some err)) :
    ∃ before input rest runner1, inputs = before ++ input :: rest ∧
      parseInputs host before runner = (runner1, none) ∧
      ((host.ParseExpr input = .error err ∧ runner2 = runner1) ∨
        ∃ expr, host.ParseExpr input = .ok expr ∧
          parseNode host runner1 expr = (runner2, .error err)) := by
  induction inputs generalizing runner with
  | nil => simp [parseInputs] at h
  | cons input inputs ih =>
    simp only [parseInputs] at h
    cases hp : host.ParseExpr input with
    | error e =>
      simp only [hp, Prod.mk.injEq, Option.some.injEq] at h
      obtain ⟨rfl, rfl⟩ := h
      exact ⟨[], input, inputs, runner, rfl, rfl, Or.inl ⟨hp, rfl⟩⟩
    | ok expr =>
      rcases hn : parseNode host runner expr with ⟨r1, res⟩
      cases res with
      | error e =>
        simp only [hp, hn, Prod.mk.injEq, Option.some.injEq] at h
        obtain ⟨rfl, rfl⟩ := h
        exact ⟨[], input, inputs, runner, rfl, rfl, Or.inr ⟨expr, hp, hn⟩⟩
      | ok v =>
        simp only [hp, hn] at h
        obtain ⟨before, bad, rest, runner1, hsplit, hbefore, hbad⟩ := ih r1 h
        refine ⟨input :: before, bad, rest, runner1, by rw [hsplit]; rfl, ?_, hbad⟩
        simp only [parseInputs, hp, hn]
        exact hbefore

/-- C11: when Parse returns no error, every input parsed and evaluated, and the runner
has a logging plugin variable: the value the inputs left there, with the runner as the
inputs left it, or, when they left none, the default plugin instance, set by Parse with
no other variable touched. When an input does not parse or does not evaluate, the inputs
before it having given no error, Parse returns that error and the runner as it was at
the failure, without the default; every error of Parse arises so. -/
theorem C11_Parse_default_logging_plugin (host : Host) (inputs : List String)
    (runner : Runner) :
    ((Parse host inputs runner).2 = none →
      (parseInputs host inputs runner).2 = none ∧
      ((Parse host inputs runner).1.GetVar LoggingPlugin).isSome = true ∧
      (∀ v, (parseInputs host inputs runner).1.GetVar LoggingPlugin = some v →
        (Parse host inputs runner).1 = (parseInputs host inputs runner).1) ∧
      ((parseInputs host inputs runner).1.GetVar LoggingPlugin = none →
        (Parse host inputs runner).1 =
          (parseInputs host inputs runner).1.SetVar LoggingPlugin .defaultLoggingPlugin ∧
        (Parse host inputs runner).1.GetVar LoggingPlugin = some .defaultLoggingPlugin ∧
        ∀ key, key ≠ LoggingPlugin →
          (Parse host inputs runner).1.GetVar key =
            (parseInputs host inputs runner).1.GetVar key)) ∧
    (∀ before input rest runner1, parseInputs host before runner = (runner1, none) →
      (∀ err, host.ParseExpr input = .error err →
        Parse host (before ++ input :: rest) runner = (runner1, some err)) ∧
      (∀ expr runner2 err, host.ParseExpr input = .ok expr →
        parseNode host runner1 expr = (runner2, .error err) →
        Parse host (before ++ input :: rest) runner = (runner2, some err))) ∧
    (∀ err, (Parse host inputs runner).2 = some err →
      ∃ before input rest runner1, inputs = before ++ input :: rest ∧
        parseInputs host before runner = (runner1, none) ∧
        ((host.ParseExpr input = .error err ∧ (Parse host inputs runner).1 = runner1) ∨
          ∃ expr, host.ParseExpr input = .ok expr ∧
            parseNode host runner1 expr = ((Parse host inputs runner).1, .error err))) ∧
    Parse demoHost [] emptyRunner = (⟨[(LoggingPlugin, .defaultLoggingPlugin)]⟩, none) ∧
    Parse demoHost ["(Setup())"] emptyRunner =
      (⟨[(LoggingPlugin, .defaultLoggingPlugin)]⟩, none) ∧
    Parse demoHost ["Log()", "(Setup())"] emptyRunner =
      (⟨[(LoggingPlugin, .object "log")]⟩, none) ∧
    Parse demoHost ["(Setup())", "x +", "Log()"] emptyRunner =
      (emptyRunner, some (.syntaxError "expected operand")) ∧
    Parse demoHost ["Log()", "Nope()"] emptyRunner =
      (⟨[(LoggingPlugin, .object "log")]⟩, some (.unsupportedFunction "Nope")) ∧
    Parse demoHost ["1 + 2"] emptyRunner = (emptyRunner, some .unsupportedNode) := by
  refine ⟨?_, ?_, ?_, rfl, rfl, rfl, rfl, rfl, rfl⟩
  · intro hnone
    rcases hp : parseInputs host inputs runner with ⟨r1, e⟩
    cases e with
    | some err => simp [Parse, hp] at hnone
    | none =>
      cases hg : r1.GetVar LoggingPlugin with
      | some v =>
        have hP : Parse host inputs runner = (r1, none) := by simp [Parse, hp, hg]
        rw [hP]
        exact ⟨rfl, by simp [hg], fun _ _ => rfl, fun h => by simp at h⟩
      | none =>
        have hP : Parse host inputs runner =
            (r1.SetVar LoggingPlugin .defaultLoggingPlugin, none) := by
          simp [Parse, hp, hg]
        have hget : ∀ key, (r1.SetVar LoggingPlugin .defaultLoggingPlugin).GetVar key =
            if LoggingPlugin = key then some .defaultLoggingPlugin else r1.GetVar key :=
          fun key => Kube.GoMap.get_set r1.vars LoggingPlugin .defaultLoggingPlugin key
        rw [hP]
        refine ⟨rfl, by simp [hget], fun v hv => by simp at hv, fun _ => ⟨rfl, by simp [hget], ?_⟩⟩
        intro key hkey
        simp only [hget]
        rw [if_neg (fun e => hkey e.symm)]
  · intro before input rest runner1 hbefore
    constructor
    · intro err hperr
      simp [Parse, parseInputs_append, hbefore, parseInputs, hperr]
    · intro expr runner2 err hpok hnode
      simp [Parse, parseInputs_append, hbefore, parseInputs, hpok, hnode]
  · intro err herr
    rcases hp : parseInputs host inputs runner with ⟨r1, e⟩
    cases e with
    | none =>
      simp only [Parse, hp] at herr
      split at herr <;> simp at herr
    | some e1 =>
      have hP : Parse host inputs runner = (r1, some e1) := by simp [Parse, hp]
      rw [hP] at herr ⊢
      simp only [Option.some.injEq] at herr
      subst herr
      exact parseInputs_error host inputs runner r1 e1 hp

end ForceRunner
